import Mathlib

/-!
# Verification of `server.js` (image-search scraper)

A shallow embedding of the request pipeline of `server.js`:

* the JavaScript values that flow through the extraction (`JSValue`), with
  truthiness and the `||` operator;
* the in-page extraction of `extractFromPage` (anchor pass, `img` fallback);
* the deduplication loop of `extractFromPage`;
* the safety-level mapping and URL construction of `doSearch` and of the
  `/search` handler;
* the effect traces of `doSearch` and of the `/search` handler;
* the single-flight browser launch of `getBrowser` as a transition system.
-/

namespace Server

/-! ## JavaScript values -/

/-- A JavaScript value as far as the program can observe it: the primitives,
and objects (arrays and functions included) identified by their reference.
Numbers are represented by integers; the program only tests them for
truthiness and identity. -/
inductive JSValue where
  | undefined
  | null
  | bool (b : Bool)
  | number (n : Int)
  | string (s : String)
  | object (ref : Nat)
  deriving DecidableEq

/-- JavaScript truthiness (`ToBoolean`). -/
def JSValue.truthy : JSValue → Bool
  | .undefined => false
  | .null => false
  | .bool b => b
  | .number n => n != 0
  | .string s => s != ""
  | .object _ => true

/-- The JavaScript operator `a || b`. -/
def JSValue.or (a b : JSValue) : JSValue :=
  if a.truthy then a else b

/-- A raw result record `{src, thumb, page, title}`. -/
structure Record where
  src : JSValue
  thumb : JSValue
  page : JSValue
  title : JSValue
  deriving DecidableEq

/-! ## The deduplication loop of `extractFromPage` (lines 76-85) -/

/-- The `for (const r of results)` loop, with its two accumulators `seen` and
`dedup`.  An element of `results` is `none` when it is `null`/`undefined`
(the `!r` guard).  `seen.has` is membership by identity of values; the `break`
returns the accumulator as soon as it holds 80 records. -/
def dedupLoop : List (Option Record) → List JSValue → List Record → List Record
  | [], _, dedup => dedup
  | none :: rest, seen, dedup => dedupLoop rest seen dedup
  | some r :: rest, seen, dedup =>
    if !r.src.truthy then dedupLoop rest seen dedup
    else if seen.contains r.src then dedupLoop rest seen dedup
    else
      let seen' := seen ++ [r.src]
      let dedup' := dedup ++ [r]
      if dedup'.length ≥ 80 then dedup' else dedupLoop rest seen' dedup'

/-- Lines 76-85 of `extractFromPage`: `seen` and `dedup` start empty. -/
def dedupResults (results : List (Option Record)) : List Record :=
  dedupLoop results [] []

/-- The same loop without the `if (dedup.length >= 80) break;` line. -/
def dedupLoopUncapped : List (Option Record) → List JSValue → List Record → List Record
  | [], _, dedup => dedup
  | none :: rest, seen, dedup => dedupLoopUncapped rest seen dedup
  | some r :: rest, seen, dedup =>
    if !r.src.truthy then dedupLoopUncapped rest seen dedup
    else if seen.contains r.src then dedupLoopUncapped rest seen dedup
    else dedupLoopUncapped rest (seen ++ [r.src]) (dedup ++ [r])

/-- The uncapped loop from empty accumulators. -/
def dedupResultsUncapped (results : List (Option Record)) : List Record :=
  dedupLoopUncapped results [] []

/-- The usable `src` values of the input, in input order: those of the
non-null records whose `src` is truthy. -/
def usableSrcs : List (Option Record) → List JSValue
  | [] => []
  | none :: rest => usableSrcs rest
  | some r :: rest => if r.src.truthy then r.src :: usableSrcs rest else usableSrcs rest

/-- The distinct values of a list, each at the place of its first occurrence. -/
def firstSeen : List JSValue → List JSValue
  | [] => []
  | v :: vs => v :: (firstSeen vs).filter (fun w => decide (w ≠ v))

/-- Whether an element of `results` is a record with the given `src`. -/
def hasSrc (v : JSValue) : Option Record → Bool
  | none => false
  | some r => decide (r.src = v)

/-- The records that the loop appends when it runs over `l` with `seen`
already seen (auxiliary, for the proofs). -/
def keepNew : List (Option Record) → List JSValue → List Record
  | [], _ => []
  | none :: rest, seen => keepNew rest seen
  | some r :: rest, seen =>
    if !r.src.truthy then keepNew rest seen
    else if seen.contains r.src then keepNew rest seen
    else r :: keepNew rest (seen ++ [r.src])

/-! ## The in-page extraction of `extractFromPage` (lines 51-75) -/

/-- The value `JSON.parse` returns, as far as the property reads of the
program can see it.  An object carries its own properties (one entry per key);
`props` values that are themselves objects or arrays are `JSValue.object`. -/
inductive JSONValue where
  | null
  | bool (b : Bool)
  | number (n : Int)
  | string (s : String)
  | array
  | object (props : List (String × JSValue))

/-- The property read `meta.key` for the keys the program reads (`murl`,
`turl`, `purl`, `pt`, `s`): `none` is the `TypeError` of reading a property of
`null`; a boolean, number, string or array has no such property. -/
def JSONValue.getProp : JSONValue → String → Option JSValue
  | .null, _ => none
  | .bool _, _ => some .undefined
  | .number _, _ => some .undefined
  | .string _, _ => some .undefined
  | .array, _ => some .undefined
  | .object props, key =>
    match props.lookup key with
    | some v => some v
    | none => some .undefined

/-- An `a.iusc` element: what `a.getAttribute('m')` returns (`none` is `null`). -/
structure Anchor where
  m : Option String

/-- An `img` element: what `getAttribute` returns for `src`, `data-src`, `alt`. -/
structure Img where
  src : Option String
  dataSrc : Option String
  alt : Option String

/-- The page as the extraction sees it: the results of
`querySelectorAll('a.iusc')` and `querySelectorAll('img')`, in document order. -/
structure Page where
  anchors : List Anchor
  imgs : List Img

/-- The result of `getAttribute` as a JavaScript value. -/
def attrValue : Option String → JSValue
  | none => .null
  | some s => .string s

/-- The body of the `forEach` callback over anchors (lines 54-64): the record
it pushes, or `none` when it pushes nothing (`!m`, or an exception caught by the
empty `catch`).  `parse` is `JSON.parse`; `none` is a thrown `SyntaxError`. -/
def anchorRecord (parse : String → Option JSONValue) (a : Anchor) : Option Record :=
  match a.m with
  | none => none
  | some m =>
    if m = "" then none
    else
      match parse m with
      | none => none
      | some meta =>
        match meta.getProp "murl", meta.getProp "turl", meta.getProp "purl",
          meta.getProp "pt", meta.getProp "s" with
        | some murl, some turl, some purl, some pt, some s =>
          some {
            src := murl.or .null
            thumb := (turl.or murl).or .null
            page := purl.or .null
            title := (pt.or s).or .null }
        | _, _, _, _, _ => none

/-- Lines 53-65: `forEach` over the anchors, pushing onto `out`. -/
def anchorPass (parse : String → Option JSONValue) (anchors : List Anchor) : List Record :=
  anchors.foldl (fun out a =>
    match anchorRecord parse a with
    | some r => out ++ [r]
    | none => out) []

/-- Whether a JavaScript string starts with `data:`. -/
def startsWithData (s : String) : Bool :=
  "data:".toList.isPrefixOf s.toList

/-- The body of the `forEach` callback over `img` elements (lines 68-71). -/
def imgRecord (img : Img) : Option Record :=
  let src := ((attrValue img.src).or (attrValue img.dataSrc)).or .null
  match src with
  | .string s =>
    if src.truthy && !startsWithData s then
      some { src := src, thumb := src, page := .null,
             title := (attrValue img.alt).or .null }
    else none
  | _ => none

/-- Lines 67-72: `forEach` over the `img` elements, pushing onto `out`. -/
def imgPass (out : List Record) (imgs : List Img) : List Record :=
  imgs.foldl (fun out img =>
    match imgRecord img with
    | some r => out ++ [r]
    | none => out) out

/-- The function evaluated in the page (lines 51-75). -/
def evaluateExtract (parse : String → Option JSONValue) (page : Page) : List Record :=
  let out := anchorPass parse page.anchors
  if out.length = 0 then imgPass out page.imgs else out

/-- The copy of a value that `page.evaluate` hands to the caller: a primitive
is itself, an object is a new object, of reference `ref`. -/
def JSValue.copy (ref : Nat) : JSValue → JSValue
  | .object _ => .object ref
  | v => v

/-- The copy of the record at index `i` of the returned array: each of its
four members is copied by value, so that an object-valued member is an object
of its own (no two members of the returned records share a reference). -/
def copyRecord (i : Nat) (r : Record) : Record :=
  { src := r.src.copy (4 * i)
    thumb := r.thumb.copy (4 * i + 1)
    page := r.page.copy (4 * i + 2)
    title := r.title.copy (4 * i + 3) }

/-- The copy of the records from index `i` on. -/
def copyFrom : Nat → List Record → List Record
  | _, [] => []
  | i, r :: rest => copyRecord i r :: copyFrom (i + 1) rest

/-- The array that `page.evaluate` returns (line 51): the records built in the
page, copied by value. -/
def pageEvaluate (parse : String → Option JSONValue) (page : Page) : List Record :=
  copyFrom 0 (evaluateExtract parse page)

/-- The function `extractFromPage`, when `page.evaluate` succeeds: the
records returned by the page evaluation, then the deduplication loop. -/
def extractFromPage (parse : String → Option JSONValue) (page : Page) : List Record :=
  dedupResults ((pageEvaluate parse page).map some)

/-- The guard of line 66, `out.length === 0` after the anchor pass: whether
the scan of `img` elements runs. -/
def imgScanRuns (parse : String → Option JSONValue) (page : Page) : Bool :=
  decide ((anchorPass parse page.anchors).length = 0)

/-- The member `key` of a parsed payload, in the words of the specification:
the value of the property when the payload is an object that has it, and
absent (`undefined`) otherwise. -/
def memberOf (payload : JSONValue) (key : String) : JSValue :=
  match payload with
  | .object props => (props.lookup key).getD .undefined
  | _ => .undefined

/-- The record of a payload, in the words of the specification:
`{src: murl or null, thumb: turl, else murl, else null, page: purl or null,
title: pt, else s, else null}`. -/
def payloadRecord (payload : JSONValue) : Record :=
  { src := (memberOf payload "murl").or .null
    thumb := ((memberOf payload "turl").or (memberOf payload "murl")).or .null
    page := (memberOf payload "purl").or .null
    title := ((memberOf payload "pt").or (memberOf payload "s")).or .null }

/-- The anchor pass as the specification words it: a record for each anchor
whose `m` attribute is present and parses as a JSON object, nothing for the
other anchors. -/
def anchorRecordOfObject (parse : String → Option JSONValue) (a : Anchor) : Option Record :=
  match a.m with
  | none => none
  | some m =>
    match parse m with
    | some (.object props) => some (payloadRecord (.object props))
    | _ => none

/-- The source of an `img` element in the words of the specification: its
`src` attribute when present (and not empty), failing that its `data-src`
attribute when present (and not empty). -/
def imgSource (img : Img) : Option String :=
  match img.src with
  | some s => if s ≠ "" then some s else img.dataSrc.filter (fun t => decide (t ≠ ""))
  | none => img.dataSrc.filter (fun t => decide (t ≠ ""))

/-! ## Query parameters, `SAFE_MAP` and the target URL -/

/-- A member of `req.query`: absent (`undefined`), a string, or a nested value
(an array or an object built by the query parser), of which only the string
conversion is observed: `some t` when it converts to the string `t` (`a,b` for
the array of `q=a&q=b`, `[object Object]` for the object of `safe[x]=1`), `none`
when the conversion throws a `TypeError` (the object of `safe[toString]=x`,
whose own `toString` is not callable). -/
inductive QueryValue where
  | absent
  | str (s : String)
  | nested (asString : Option String)
  deriving DecidableEq

/-- The conversion of a value to a property key (`ToPropertyKey`); `none` is
a thrown `TypeError`. -/
def QueryValue.toKey : QueryValue → Option String
  | .absent => some "undefined"
  | .str s => some s
  | .nested t => t

/-- What a property read on `SAFE_MAP` can return. -/
inductive MapValue where
  | undefined
  | str (s : String)
  | builtinFunction (name : String)
  | objectPrototype
  deriving DecidableEq

/-- Truthiness of a `SAFE_MAP` read. -/
def MapValue.truthy : MapValue → Bool
  | .undefined => false
  | .str s => s != ""
  | .builtinFunction _ => true
  | .objectPrototype => true

/-- String conversion of a `SAFE_MAP` read, as a template literal does it. -/
def MapValue.toStr : MapValue → String
  | .undefined => "undefined"
  | .str s => s
  | .builtinFunction name => "function " ++ name ++ "() \x7b [native code] \x7d"
  | .objectPrototype => "[object Object]"

/-- The names of the methods of `Object.prototype`. -/
def objectPrototypeFunctions : List String :=
  ["hasOwnProperty", "isPrototypeOf", "propertyIsEnumerable",
   "toLocaleString", "toString", "valueOf", "__defineGetter__",
   "__defineSetter__", "__lookupGetter__", "__lookupSetter__"]

/-- The property read `SAFE_MAP[key]` on the object literal of line 9
`{ strict: 'strict', moderate: 'moderate', off: 'off' }`: its own properties,
then those it inherits from `Object.prototype` (`constructor` is the function
`Object`, a method is a function of its own name, `__proto__` is
`Object.prototype` itself). -/
def SAFE_MAP (key : String) : MapValue :=
  if key = "strict" then .str "strict"
  else if key = "moderate" then .str "moderate"
  else if key = "off" then .str "off"
  else if key = "constructor" then .builtinFunction "Object"
  else if key ∈ objectPrototypeFunctions then .builtinFunction key
  else if key = "__proto__" then .objectPrototype
  else .undefined

/-- Line 111: `SAFE_MAP[req.query.safe] ? req.query.safe : 'moderate'`;
`none` is the `TypeError` thrown by the conversion of `req.query.safe` to a
property key. -/
def handlerSafe (safe : QueryValue) : Option QueryValue :=
  match safe.toKey with
  | none => none
  | some key => if (SAFE_MAP key).truthy then some safe else some (.str "moderate")

/-- Line 96: `SAFE_MAP[safe] || 'moderate'`, converted to a string as the
template literal of line 97 does; `none` is the `TypeError` thrown by the
conversion of `safe` to a property key. -/
def adlt (safe : QueryValue) : Option String :=
  match safe.toKey with
  | none => none
  | some key => if (SAFE_MAP key).truthy then some (SAFE_MAP key).toStr else some "moderate"

/-- Lines 95-97: the URL passed to `page.goto`; `encode` is
`encodeURIComponent`; `none` is the `TypeError` of line 96. -/
def searchUrl (encode : String → String) (q : String) (safe : QueryValue) : Option String :=
  match adlt safe with
  | none => none
  | some level => some ("https://www.bing.com/images/search?q=" ++ encode q ++ "&adlt=" ++ level)

/-- The white space and line terminators that `String.prototype.trim` strips. -/
def isJSWhiteSpace (c : Char) : Bool :=
  let n := c.toNat
  n = 0x09 || n = 0x0A || n = 0x0B || n = 0x0C || n = 0x0D || n = 0x20 ||
  n = 0xA0 || n = 0x1680 || (0x2000 ≤ n && n ≤ 0x200A) || n = 0x2028 ||
  n = 0x2029 || n = 0x202F || n = 0x205F || n = 0x3000 || n = 0xFEFF

/-- The method `String.prototype.trim`. -/
def jsTrim (s : String) : String :=
  String.mk ((s.toList.dropWhile isJSWhiteSpace).reverse.dropWhile isJSWhiteSpace).reverse

/-! ## The `/search` handler (lines 108-120) -/

abbrev Err := String

/-- The body of a JSON response. -/
inductive Body where
  | error (message : String)
  | results (query : String) (safe : QueryValue) (count : Nat) (results : List Record)

/-- The response sent by the handler. -/
structure Response where
  status : Nat
  body : Body

/-- The calls the handler makes besides sending the response. -/
inductive HandlerEvent where
  | consoleLog (q : String) (safe : QueryValue)
  | limit
  | doSearch (q : String) (safe : QueryValue)
  | consoleError
  deriving DecidableEq

/-- The expression `(req.query.q || '').trim()`: `none` is the `TypeError`
raised when the value is a nested one, which has no `trim` method. -/
def trimmedQuery : QueryValue → Option String
  | .absent => some (jsTrim "")
  | .str s => if s = "" then some (jsTrim "") else some (jsTrim s)
  | .nested _ => none

/-- The `/search` handler.  `search q safe` is the outcome of
`limit(() => doSearch(q, safe))`.  The result is the response and the calls
made, in order.  An exception of line 110 or of line 111 is caught at line
116, before the test of `q` on line 112 is reached. -/
def searchHandler (search : String → QueryValue → Except Err (List Record))
    (q safe : QueryValue) : Response × List HandlerEvent :=
  match trimmedQuery q with
  | none => (⟨500, .error "Failed to fetch results"⟩, [.consoleError])
  | some q =>
    match handlerSafe safe with
    | none => (⟨500, .error "Failed to fetch results"⟩, [.consoleError])
    | some safe =>
    if q = "" then (⟨400, .error "Missing query parameter `q`"⟩, [])
    else
      match search q safe with
      | .ok results =>
        (⟨200, .results q safe results.length results⟩,
          [.consoleLog q safe, .limit, .doSearch q safe])
      | .error _ =>
        (⟨500, .error "Failed to fetch results"⟩,
          [.consoleLog q safe, .limit, .doSearch q safe, .consoleError])

/-! ## The scrape `doSearch` (lines 88-106) -/

/-- The outcome of each awaited operation of one run of `doSearch`: `none`
means that the operation resolves, `some e` that it rejects with `e`. -/
structure Outcomes where
  getBrowser : Option Err
  newPage : Option Err
  setUserAgent : Option Err
  setExtraHTTPHeaders : Option Err
  setViewport : Option Err
  goto : Option Err
  scroll : Option Err
  extract : Except Err (List Record)
  close : Option Err

/-- The operations `doSearch` starts, in order. -/
inductive PageEvent where
  | getBrowser
  | newPage
  | setUserAgent
  | setExtraHTTPHeaders
  | setViewport
  | goto (url : String)
  | sleep (ms : Nat)
  | scroll
  | extractFromPage
  | close
  deriving DecidableEq

/-- The function `doSearch`: what it returns or throws, and the operations
it started, in order.  Each operation is recorded when it is started; when it
rejects, the exception leaves the function at that `await`, as the function has
no `try`; so does a `TypeError` of line 96. -/
def doSearch (encode : String → String) (o : Outcomes) (q : String) (safe : QueryValue) :
    Except Err (List Record) × List PageEvent :=
  let t := [PageEvent.getBrowser]
  match o.getBrowser with
  | some e => (.error e, t)
  | none =>
  let t := t ++ [.newPage]
  match o.newPage with
  | some e => (.error e, t)
  | none =>
  let t := t ++ [.setUserAgent]
  match o.setUserAgent with
  | some e => (.error e, t)
  | none =>
  let t := t ++ [.setExtraHTTPHeaders]
  match o.setExtraHTTPHeaders with
  | some e => (.error e, t)
  | none =>
  let t := t ++ [.setViewport]
  match o.setViewport with
  | some e => (.error e, t)
  | none =>
  match searchUrl encode q safe with
  | none => (.error "TypeError", t)
  | some url =>
  let t := t ++ [.goto url]
  match o.goto with
  | some e => (.error e, t)
  | none =>
  let t := t ++ [.sleep 700, .scroll]
  match o.scroll with
  | some e => (.error e, t)
  | none =>
  let t := t ++ [.sleep 500, .extractFromPage]
  match o.extract with
  | .error e => (.error e, t)
  | .ok extracted =>
  let t := t ++ [.close]
  match o.close with
  | some e => (.error e, t)
  | none => (.ok extracted, t)

/-! ## The browser session `getBrowser` (lines 24-46) -/

abbrev Handle := Nat

/-- The state of a promise returned by `puppeteer.launch`. -/
inductive Launch where
  | pending
  | fulfilled (b : Handle)
  | rejected (e : Err)
  deriving DecidableEq

/-- The state of one invocation of `getBrowser`. -/
inductive Caller where
  | awaiting (p : Nat)
  | returned (b : Handle)
  | returnedLaunch (p : Nat)
  | threw (e : Err)
  deriving DecidableEq

/-- The module variables `browser` and `browserLaunching`, the promises that
`puppeteer.launch` has returned so far (one per invocation of it, in order;
`browserLaunching` holds the index of one), and the invocations of
`getBrowser` so far.  A caller is `awaiting p` while suspended at line 43,
`returned b` after `return browser` (line 28 or 45), `returnedLaunch p` after
`return browserLaunching` (line 29), `threw e` when line 43 threw. -/
structure BrowserState where
  browser : Option Handle
  browserLaunching : Option Nat
  launches : List Launch
  callers : List Caller
  deriving DecidableEq

/-- The initial state: `browser = null`, `browserLaunching = null`. -/
def BrowserState.init : BrowserState :=
  { browser := none, browserLaunching := none, launches := [], callers := [] }

/-- What can happen: a new invocation of `getBrowser` (run up to its first
`await` or `return`), the settling of a launch promise, and the resumption of
a caller suspended at line 43. -/
inductive Event where
  | call
  | settle (p : Nat) (result : Except Err Handle)
  | resume (c : Nat)

/-- The promise state a launch result settles to. -/
def settled : Except Err Handle → Launch
  | .ok b => .fulfilled b
  | .error e => .rejected e

/-- One transition of `getBrowser`.  An event that is not enabled (settling a
promise that is not pending, resuming a caller that is not suspended on a
settled promise) leaves the state unchanged. -/
def step (st : BrowserState) : Event → BrowserState
  | .call =>
    match st.browser with
    | some b => { st with callers := st.callers ++ [.returned b] }
    | none =>
      match st.browserLaunching with
      | some p => { st with callers := st.callers ++ [.returnedLaunch p] }
      | none =>
        { st with
          browserLaunching := some st.launches.length
          launches := st.launches ++ [.pending]
          callers := st.callers ++ [.awaiting st.launches.length] }
  | .settle p result =>
    match st.launches[p]? with
    | some .pending => { st with launches := st.launches.set p (settled result) }
    | _ => st
  | .resume c =>
    match st.callers[c]? with
    | some (.awaiting p) =>
      match st.launches[p]? with
      | some (.fulfilled b) =>
        { st with
          browser := some b
          browserLaunching := none
          callers := st.callers.set c (.returned b) }
      | some (.rejected e) => { st with callers := st.callers.set c (.threw e) }
      | _ => st
    | _ => st

/-- Run a sequence of events. -/
def run (st : BrowserState) (evs : List Event) : BrowserState :=
  evs.foldl step st

/-- The state of the promise that `getBrowser` returned to caller `c` (`none`
when there is no such caller): a caller that returned `browserLaunching` gets
what that promise settles to. -/
def received (st : BrowserState) (c : Nat) : Option Launch :=
  match st.callers[c]? with
  | none => none
  | some (.awaiting _) => some .pending
  | some (.returned b) => some (.fulfilled b)
  | some (.threw e) => some (.rejected e)
  | some (.returnedLaunch p) =>
    match st.launches[p]? with
    | some l => some l
    | none => some .pending

/-- The number of times `puppeteer.launch` has been invoked. -/
def launchCount (st : BrowserState) : Nat :=
  st.launches.length

/-! ## Deduplication: auxiliary lemmas -/

theorem dedupLoopUncapped_eq (l : List (Option Record)) (seen : List JSValue)
    (dedup : List Record) :
    dedupLoopUncapped l seen dedup = dedup ++ keepNew l seen := by
  induction l generalizing seen dedup with
  | nil => simp [dedupLoopUncapped, keepNew]
  | cons x rest ih =>
    cases x with
    | none => simp [dedupLoopUncapped, keepNew, ih]
    | some r =>
      simp only [dedupLoopUncapped, keepNew]
      split
      · exact ih _ _
      · split
        · exact ih _ _
        · rw [ih]; simp

theorem dedupLoop_eq (l : List (Option Record)) (seen : List JSValue)
    (dedup : List Record) (hlen : dedup.length < 80) :
    dedupLoop l seen dedup = (dedup ++ keepNew l seen).take 80 := by
  induction l generalizing seen dedup with
  | nil =>
    simp only [dedupLoop, keepNew, List.append_nil]
    exact (List.take_of_length_le (by omega)).symm
  | cons x rest ih =>
    cases x with
    | none => simp only [dedupLoop, keepNew]; exact ih _ _ hlen
    | some r =>
      simp only [dedupLoop, keepNew]
      split
      · exact ih _ _ hlen
      · split
        · exact ih _ _ hlen
        · split
          · rename_i hge
            have h80 : (dedup ++ [r]).length = 80 := by
              simp only [List.length_append, List.length_singleton] at hge ⊢; omega
            have : dedup ++ r :: keepNew rest (seen ++ [r.src])
                = (dedup ++ [r]) ++ keepNew rest (seen ++ [r.src]) := by simp
            rw [this, List.take_left' h80]
          · rename_i hge
            have hlt : (dedup ++ [r]).length < 80 := by
              simp only [List.length_append, List.length_singleton] at hge ⊢; omega
            rw [ih _ _ hlt]
            simp

theorem dedupResults_eq_take (l : List (Option Record)) :
    dedupResults l = (keepNew l []).take 80 := by
  unfold dedupResults
  rw [dedupLoop_eq l [] [] (by simp)]
  simp

theorem dedupResultsUncapped_eq (l : List (Option Record)) :
    dedupResultsUncapped l = keepNew l [] := by
  unfold dedupResultsUncapped
  rw [dedupLoopUncapped_eq]
  simp

theorem keepNew_truthy (l : List (Option Record)) (seen : List JSValue) :
    ∀ r ∈ keepNew l seen, r.src.truthy = true := by
  induction l generalizing seen with
  | nil => simp [keepNew]
  | cons x rest ih =>
    cases x with
    | none => simpa [keepNew] using ih seen
    | some a =>
      simp only [keepNew]
      split
      · exact ih seen
      · split
        · exact ih seen
        · rename_i ht _
          intro r hr
          rcases List.mem_cons.mp hr with rfl | hr
          · simpa using ht
          · exact ih _ r hr

theorem keepNew_not_seen (l : List (Option Record)) (seen : List JSValue) :
    ∀ r ∈ keepNew l seen, r.src ∉ seen := by
  induction l generalizing seen with
  | nil => simp [keepNew]
  | cons x rest ih =>
    cases x with
    | none => simpa [keepNew] using ih seen
    | some a =>
      simp only [keepNew]
      split
      · exact ih seen
      · split
        · exact ih seen
        · rename_i _ hs
          intro r hr
          rcases List.mem_cons.mp hr with rfl | hr
          · simpa using hs
          · intro hmem
            exact ih _ r hr (List.mem_append_left _ hmem)

theorem keepNew_pairwise (l : List (Option Record)) (seen : List JSValue) :
    (keepNew l seen).Pairwise (fun a b => a.src ≠ b.src) := by
  induction l generalizing seen with
  | nil => simp [keepNew]
  | cons x rest ih =>
    cases x with
    | none => simpa [keepNew] using ih seen
    | some a =>
      simp only [keepNew]
      split
      · exact ih seen
      · split
        · exact ih seen
        · refine List.pairwise_cons.mpr ⟨?_, ih _⟩
          intro b hb heq
          exact keepNew_not_seen rest _ b hb (by simp [heq])

theorem keepNew_sublist (l : List (Option Record)) (seen : List JSValue) :
    ((keepNew l seen).map some).Sublist l := by
  induction l generalizing seen with
  | nil => simp [keepNew]
  | cons x rest ih =>
    cases x with
    | none => simp only [keepNew]; exact (ih seen).cons _
    | some a =>
      simp only [keepNew]
      split
      · exact (ih seen).cons _
      · split
        · exact (ih seen).cons _
        · simp only [List.map_cons]
          exact (ih _).cons₂ _

theorem keepNew_first (l : List (Option Record)) (seen : List JSValue) :
    ∀ r ∈ keepNew l seen, ∃ before after, l = before ++ some r :: after ∧
      ∀ x ∈ before, hasSrc r.src x = false := by
  induction l generalizing seen with
  | nil => simp [keepNew]
  | cons x rest ih =>
    have skip : ∀ (seen2 : List JSValue) (r : Record), r ∈ keepNew rest seen2 →
        hasSrc r.src x = false →
        ∃ before after, x :: rest = before ++ some r :: after ∧
          ∀ y ∈ before, hasSrc r.src y = false := by
      intro seen2 r hr hx
      obtain ⟨before, after, heq, hb⟩ := ih seen2 r hr
      refine ⟨x :: before, after, by simp [heq], ?_⟩
      intro y hy
      rcases List.mem_cons.mp hy with rfl | hy
      · exact hx
      · exact hb y hy
    cases x with
    | none =>
      intro r hr
      simp only [keepNew] at hr
      exact skip seen r hr rfl
    | some a =>
      intro r hr
      simp only [keepNew] at hr
      split at hr
      · rename_i ht
        refine skip seen r hr ?_
        have hrt := keepNew_truthy rest seen r hr
        simp only [hasSrc, decide_eq_false_iff_not]
        intro heq
        rw [heq, hrt] at ht
        simp at ht
      · split at hr
        · rename_i hs
          refine skip seen r hr ?_
          have hrs := keepNew_not_seen rest seen r hr
          simp only [hasSrc, decide_eq_false_iff_not]
          intro heq
          rw [heq] at hs
          exact hrs (by simpa using hs)
        · rcases List.mem_cons.mp hr with rfl | hr
          · exact ⟨[], rest, by simp, by simp⟩
          · refine skip _ r hr ?_
            have hrs := keepNew_not_seen rest _ r hr
            simp only [hasSrc, decide_eq_false_iff_not]
            intro heq
            exact hrs (by simp [heq])

theorem mem_firstSeen (l : List JSValue) (v : JSValue) : v ∈ firstSeen l ↔ v ∈ l := by
  induction l with
  | nil => simp [firstSeen]
  | cons a rest ih =>
    simp only [firstSeen, List.mem_cons, List.mem_filter, ih, decide_eq_true_eq]
    constructor
    · rintro (h | ⟨h, _⟩)
      · exact Or.inl h
      · exact Or.inr h
    · rintro (h | h)
      · exact Or.inl h
      · by_cases hva : v = a
        · exact Or.inl hva
        · exact Or.inr ⟨h, hva⟩

theorem firstSeen_nodup (l : List JSValue) : (firstSeen l).Nodup := by
  induction l with
  | nil => simp [firstSeen]
  | cons a rest ih =>
    simp only [firstSeen]
    refine List.nodup_cons.mpr ⟨?_, ih.filter _⟩
    simp [List.mem_filter]

theorem firstSeen_length (l : List JSValue) : (firstSeen l).length = l.toFinset.card := by
  rw [← List.toFinset_card_of_nodup (firstSeen_nodup l)]
  congr 1
  ext v
  simp [mem_firstSeen]

theorem keepNew_srcs (l : List (Option Record)) (seen : List JSValue) :
    (keepNew l seen).map Record.src
      = (firstSeen (usableSrcs l)).filter (fun v => decide (v ∉ seen)) := by
  induction l generalizing seen with
  | nil => simp [keepNew, usableSrcs, firstSeen]
  | cons x rest ih =>
    cases x with
    | none => simpa [keepNew, usableSrcs] using ih seen
    | some a =>
      simp only [keepNew, usableSrcs]
      split
      · rename_i ht
        have hf : a.src.truthy = false := by simpa using ht
        simp only [hf]
        exact ih seen
      · rename_i ht
        have hf : a.src.truthy = true := by simpa using ht
        simp only [hf, if_true, firstSeen]
        split
        · rename_i hs
          have hmem : a.src ∈ seen := by simpa using hs
          rw [ih seen, List.filter_cons]
          simp only [hmem, not_true_eq_false, decide_False, Bool.false_eq_true, if_false,
            List.filter_filter]
          apply List.filter_congr
          intro v _
          by_cases hv : v ∈ seen
          · simp [hv]
          · have : v ≠ a.src := fun h => hv (h ▸ hmem)
            simp [hv, this]
        · rename_i hs
          have hmem : a.src ∉ seen := by simpa using hs
          rw [List.map_cons, ih, List.filter_cons]
          simp only [hmem, not_false_eq_true, decide_True, if_true, List.filter_filter]
          congr 1
          apply List.filter_congr
          intro v _
          by_cases hv : v ∈ seen <;> by_cases hva : v = a.src <;> simp [hv, hva]

theorem keepNew_srcs_nil (l : List (Option Record)) :
    (keepNew l []).map Record.src = firstSeen (usableSrcs l) := by
  rw [keepNew_srcs]
  simp

/-! ## Deduplication: the claims -/

/-- C1: for every sequence of raw records, the list produced by the
deduplication loop of `extractFromPage` contains no two records with equal
`src`, and every record in it has a present `src` (truthy, hence neither
`null`, `undefined` nor the empty string). -/
theorem dedupResults_distinct_present (results : List (Option Record)) :
    (dedupResults results).Pairwise (fun a b => a.src ≠ b.src) ∧
    ∀ r ∈ dedupResults results,
      r.src.truthy = true ∧ r.src ≠ .null ∧ r.src ≠ .undefined ∧ r.src ≠ .string "" := by
  rw [dedupResults_eq_take]
  refine ⟨(keepNew_pairwise results []).sublist (List.take_sublist _ _), ?_⟩
  intro r hr
  have ht := keepNew_truthy results [] r (List.mem_of_mem_take hr)
  refine ⟨ht, ?_, ?_, ?_⟩ <;> intro h <;> rw [h] at ht <;> simp [JSValue.truthy] at ht

/-- C2: for every sequence of raw records, the output of the deduplication
loop is a subsequence of the input, and each kept record is the first record
of the input that has its `src`: the input splits as `before ++ r :: after`
where no element of `before` is a record with the `src` of `r`. -/
theorem dedupResults_stable_first (results : List (Option Record)) :
    ((dedupResults results).map some).Sublist results ∧
    ∀ r ∈ dedupResults results, ∃ before after,
      results = before ++ some r :: after ∧ ∀ x ∈ before, hasSrc r.src x = false := by
  rw [dedupResults_eq_take]
  constructor
  · exact (((List.take_sublist 80 (keepNew results [])).map some).trans
      (keepNew_sublist results []))
  · intro r hr
    exact keepNew_first results [] r (List.mem_of_mem_take hr)

/-- C3: for every sequence of raw records, the output of the deduplication
loop has length at most 80 and equals the first 80 elements of what the loop
keeps without the cap, whose `src` values are the distinct usable `src` values
of the input in order of first occurrence; when the input holds at least 80
distinct usable `src` values the output has exactly 80 records, those of the
first 80 distinct values, and otherwise it holds exactly one record for every
distinct usable `src` of the input. -/
theorem dedupResults_cap (results : List (Option Record)) :
    (dedupResults results).length ≤ 80 ∧
    dedupResults results = (dedupResultsUncapped results).take 80 ∧
    (dedupResultsUncapped results).map Record.src = firstSeen (usableSrcs results) ∧
    (80 ≤ (usableSrcs results).toFinset.card →
      (dedupResults results).length = 80 ∧
      (dedupResults results).map Record.src = (firstSeen (usableSrcs results)).take 80) ∧
    ((usableSrcs results).toFinset.card < 80 →
      (dedupResults results).length = (usableSrcs results).toFinset.card ∧
      (∀ v, v ∈ (dedupResults results).map Record.src ↔ v ∈ usableSrcs results) ∧
      ∀ v ∈ usableSrcs results, ((dedupResults results).map Record.src).count v = 1) := by
  have hsrc := keepNew_srcs_nil results
  have hlen : (keepNew results []).length = (usableSrcs results).toFinset.card := by
    rw [← firstSeen_length, ← hsrc, List.length_map]
  rw [dedupResultsUncapped_eq, dedupResults_eq_take]
  refine ⟨?_, rfl, hsrc, ?_, ?_⟩
  · simp only [List.length_take]; omega
  · intro h
    refine ⟨?_, ?_⟩
    · simp only [List.length_take]; omega
    · rw [List.map_take, hsrc]
  · intro h
    have htake : (keepNew results []).take 80 = keepNew results [] :=
      List.take_of_length_le (by omega)
    rw [htake, hsrc]
    refine ⟨hlen, fun v => mem_firstSeen _ v, ?_⟩
    intro v hv
    exact List.count_eq_one_of_mem (firstSeen_nodup _) ((mem_firstSeen _ v).mpr hv)

/-- C3 on the input of the first example of the specification: two records
with the same `src` around a `null` and a record without `src`. -/
theorem dedupResults_cap_witness :
    dedupResults
        [some ⟨.string "http://a/1.jpg", .string "http://a/1t.jpg", .string "http://a/p1",
            .string "A"⟩,
         none,
         some ⟨.null, .null, .null, .null⟩,
         some ⟨.string "http://a/1.jpg", .null, .null, .string "again"⟩]
      = [⟨.string "http://a/1.jpg", .string "http://a/1t.jpg", .string "http://a/p1",
            .string "A"⟩] :=
  (dedupResults_cap _).2.1.trans (by decide)

/-! ## The browser session: auxiliary lemmas -/

theorem run_append (st : BrowserState) (evs₁ evs₂ : List Event) :
    run st (evs₁ ++ evs₂) = run (run st evs₁) evs₂ := by
  simp [run, List.foldl_append]

theorem run_cons (st : BrowserState) (ev : Event) (evs : List Event) :
    run st (ev :: evs) = run (step st ev) evs := rfl

theorem run_calls_launching (k : Nat) (st : BrowserState) (p : Nat)
    (hb : st.browser = none) (hl : st.browserLaunching = some p) :
    run st (List.replicate k Event.call)
      = { st with callers := st.callers ++ List.replicate k (Caller.returnedLaunch p) } := by
  induction k generalizing st with
  | zero => simp [run]
  | succ k ih =>
    rw [List.replicate_succ, run_cons]
    have hstep : step st Event.call
        = { st with callers := st.callers ++ [Caller.returnedLaunch p] } := by
      simp [step, hb, hl]
    rw [hstep, ih _ (by simpa using hb) (by simpa using hl)]
    simp [List.replicate_succ]

theorem run_calls_browser (k : Nat) (st : BrowserState) (b : Handle)
    (hb : st.browser = some b) :
    run st (List.replicate k Event.call)
      = { st with callers := st.callers ++ List.replicate k (Caller.returned b) } := by
  induction k generalizing st with
  | zero => simp [run]
  | succ k ih =>
    rw [List.replicate_succ, run_cons]
    have hstep : step st Event.call
        = { st with callers := st.callers ++ [Caller.returned b] } := by
      simp [step, hb]
    rw [hstep, ih _ (by simpa using hb)]
    simp [List.replicate_succ]

/-- The state after `n + 1` calls, a successful launch, `k` more calls, the
resumption of the first caller and `m` more calls. -/
theorem run_success_schedule (n k m : Nat) (b : Handle) :
    run BrowserState.init
        (List.replicate (n + 1) Event.call ++ [Event.settle 0 (.ok b)]
          ++ List.replicate k Event.call ++ [Event.resume 0]
          ++ List.replicate m Event.call)
      = { browser := some b
          browserLaunching := none
          launches := [Launch.fulfilled b]
          callers := Caller.returned b ::
            (List.replicate n (Caller.returnedLaunch 0)
              ++ List.replicate k (Caller.returnedLaunch 0)
              ++ List.replicate m (Caller.returned b)) } := by
  simp only [run_append, List.replicate_succ, run_cons]
  have h1 : step BrowserState.init Event.call
      = ⟨none, some 0, [Launch.pending], [Caller.awaiting 0]⟩ := by
    simp [step, BrowserState.init]
  rw [h1, run_calls_launching n _ 0 rfl rfl]
  simp only [run, List.foldl_cons, List.foldl_nil]
  have h2 : step ⟨none, some 0, [Launch.pending],
        [Caller.awaiting 0] ++ List.replicate n (Caller.returnedLaunch 0)⟩
        (Event.settle 0 (.ok b))
      = ⟨none, some 0, [Launch.fulfilled b],
        [Caller.awaiting 0] ++ List.replicate n (Caller.returnedLaunch 0)⟩ := by
    simp [step, settled]
  rw [h2]
  have h3 := run_calls_launching k ⟨none, some 0, [Launch.fulfilled b],
    [Caller.awaiting 0] ++ List.replicate n (Caller.returnedLaunch 0)⟩ 0 rfl rfl
  simp only [run] at h3
  rw [h3]
  have h4 : step ⟨none, some 0, [Launch.fulfilled b],
        [Caller.awaiting 0] ++ List.replicate n (Caller.returnedLaunch 0)
          ++ List.replicate k (Caller.returnedLaunch 0)⟩ (Event.resume 0)
      = ⟨some b, none, [Launch.fulfilled b],
        Caller.returned b :: (List.replicate n (Caller.returnedLaunch 0)
          ++ List.replicate k (Caller.returnedLaunch 0))⟩ := by
    simp [step]
  rw [h4]
  have h5 := run_calls_browser m ⟨some b, none, [Launch.fulfilled b],
        Caller.returned b :: (List.replicate n (Caller.returnedLaunch 0)
          ++ List.replicate k (Caller.returnedLaunch 0))⟩ b rfl
  simp only [run] at h5
  rw [h5]
  simp

/-- The state after `n + 1` calls, a failed launch, `k` more calls, the
resumption of the first caller and `m` more calls. -/
theorem run_failure_schedule (n k m : Nat) (e : Err) :
    run BrowserState.init
        (List.replicate (n + 1) Event.call ++ [Event.settle 0 (.error e)]
          ++ List.replicate k Event.call ++ [Event.resume 0]
          ++ List.replicate m Event.call)
      = { browser := none
          browserLaunching := some 0
          launches := [Launch.rejected e]
          callers := Caller.threw e ::
            (List.replicate n (Caller.returnedLaunch 0)
              ++ List.replicate k (Caller.returnedLaunch 0)
              ++ List.replicate m (Caller.returnedLaunch 0)) } := by
  simp only [run_append, List.replicate_succ, run_cons]
  have h1 : step BrowserState.init Event.call
      = ⟨none, some 0, [Launch.pending], [Caller.awaiting 0]⟩ := by
    simp [step, BrowserState.init]
  rw [h1, run_calls_launching n _ 0 rfl rfl]
  simp only [run, List.foldl_cons, List.foldl_nil]
  have h2 : step ⟨none, some 0, [Launch.pending],
        [Caller.awaiting 0] ++ List.replicate n (Caller.returnedLaunch 0)⟩
        (Event.settle 0 (.error e))
      = ⟨none, some 0, [Launch.rejected e],
        [Caller.awaiting 0] ++ List.replicate n (Caller.returnedLaunch 0)⟩ := by
    simp [step, settled]
  rw [h2]
  have h3 := run_calls_launching k ⟨none, some 0, [Launch.rejected e],
    [Caller.awaiting 0] ++ List.replicate n (Caller.returnedLaunch 0)⟩ 0 rfl rfl
  simp only [run] at h3
  rw [h3]
  have h4 : step ⟨none, some 0, [Launch.rejected e],
        [Caller.awaiting 0] ++ List.replicate n (Caller.returnedLaunch 0)
          ++ List.replicate k (Caller.returnedLaunch 0)⟩ (Event.resume 0)
      = ⟨none, some 0, [Launch.rejected e],
        Caller.threw e :: (List.replicate n (Caller.returnedLaunch 0)
          ++ List.replicate k (Caller.returnedLaunch 0))⟩ := by
    simp [step]
  rw [h4]
  have h5 := run_calls_launching m ⟨none, some 0, [Launch.rejected e],
        Caller.threw e :: (List.replicate n (Caller.returnedLaunch 0)
          ++ List.replicate k (Caller.returnedLaunch 0))⟩ 0 rfl rfl
  simp only [run] at h5
  rw [h5]
  simp

theorem received_of_launch (st : BrowserState) (l : Launch) (c : Nat)
    (hl : st.launches = [l])
    (hall : ∀ x ∈ st.callers, x = Caller.returnedLaunch 0 ∨
      (∃ b, x = Caller.returned b ∧ l = Launch.fulfilled b) ∨
      (∃ e, x = Caller.threw e ∧ l = Launch.rejected e))
    (hc : c < st.callers.length) :
    received st c = some l := by
  have hget : st.callers[c]? = some (st.callers[c]) := List.getElem?_eq_getElem hc
  have hmem : st.callers[c] ∈ st.callers := List.getElem_mem hc
  rcases hall _ hmem with h | ⟨b, h, rfl⟩ | ⟨e, h, rfl⟩
  · simp [received, hget, h, hl]
  · simp [received, hget, h]
  · simp [received, hget, h]

/-! ## The browser session: the claims -/

/-- C7 (the code at the failing schedule): when the launch started by the
first call fails with `e`, the error reaches every caller that was awaiting it,
but `browserLaunching` is not cleared: after the first caller has resumed it
still holds the rejected promise, every later call gets that rejected promise,
and `puppeteer.launch` is not invoked again. -/
theorem getBrowser_failed_launch_is_kept (n k m : Nat) (e : Err) :
    (run BrowserState.init
        (List.replicate (n + 1) Event.call ++ [Event.settle 0 (.error e)]
          ++ List.replicate k Event.call ++ [Event.resume 0]
          ++ List.replicate m Event.call)).browserLaunching = some 0 ∧
    launchCount (run BrowserState.init
        (List.replicate (n + 1) Event.call ++ [Event.settle 0 (.error e)]
          ++ List.replicate k Event.call ++ [Event.resume 0]
          ++ List.replicate m Event.call)) = 1 ∧
    ∀ c, c < n + 1 + k + m →
      received (run BrowserState.init
        (List.replicate (n + 1) Event.call ++ [Event.settle 0 (.error e)]
          ++ List.replicate k Event.call ++ [Event.resume 0]
          ++ List.replicate m Event.call)) c = some (Launch.rejected e) := by
  rw [run_failure_schedule]
  refine ⟨rfl, rfl, ?_⟩
  intro c hc
  apply received_of_launch _ _ _ rfl
  · intro x hx
    simp only [List.mem_cons, List.mem_append, List.mem_replicate] at hx
    rcases hx with h | ((⟨_, h⟩ | ⟨_, h⟩) | ⟨_, h⟩)
    · exact Or.inr (Or.inr ⟨e, h, rfl⟩)
    · exact Or.inl h
    · exact Or.inl h
    · exact Or.inl h
  · simp only [List.length_cons, List.length_append, List.length_replicate]; omega

/-- C8: starting from the initial state, for every `n ≥ 2` calls to
`getBrowser` made before the launch completes, every `k` calls made between
the completion of a successful launch and the resumption of the first caller,
and every `m` later calls, `puppeteer.launch` is invoked exactly once in total
(once already after the first `n` calls) and every caller receives the browser
handle `b` the launch produced. -/
theorem getBrowser_single_launch (n k m : Nat) (b : Handle) (hn : 2 ≤ n) :
    launchCount (run BrowserState.init (List.replicate n Event.call)) = 1 ∧
    launchCount (run BrowserState.init
        (List.replicate n Event.call ++ [Event.settle 0 (.ok b)]
          ++ List.replicate k Event.call ++ [Event.resume 0]
          ++ List.replicate m Event.call)) = 1 ∧
    ∀ c, c < n + k + m →
      received (run BrowserState.init
        (List.replicate n Event.call ++ [Event.settle 0 (.ok b)]
          ++ List.replicate k Event.call ++ [Event.resume 0]
          ++ List.replicate m Event.call)) c = some (Launch.fulfilled b) := by
  obtain ⟨n, rfl⟩ : ∃ n', n = n' + 1 := ⟨n - 1, by omega⟩
  rw [run_success_schedule]
  refine ⟨?_, rfl, ?_⟩
  · rw [List.replicate_succ, run_cons]
    have h1 : step BrowserState.init Event.call
        = ⟨none, some 0, [Launch.pending], [Caller.awaiting 0]⟩ := by
      simp [step, BrowserState.init]
    rw [h1, run_calls_launching n _ 0 rfl rfl]
    rfl
  · intro c hc
    apply received_of_launch _ _ _ rfl
    · intro x hx
      simp only [List.mem_cons, List.mem_append, List.mem_replicate] at hx
      rcases hx with h | ((⟨_, h⟩ | ⟨_, h⟩) | ⟨_, h⟩)
      · exact Or.inr (Or.inl ⟨b, h, rfl⟩)
      · exact Or.inl h
      · exact Or.inl h
      · exact Or.inr (Or.inl ⟨b, h, rfl⟩)
    · simp only [List.length_cons, List.length_append, List.length_replicate]; omega

/-- C8 at three early calls, one call before the first caller resumes and two
later calls. -/
theorem getBrowser_single_launch_witness :
    launchCount (run BrowserState.init (List.replicate 3 Event.call)) = 1 ∧
    launchCount (run BrowserState.init
        (List.replicate 3 Event.call ++ [Event.settle 0 (.ok 7)]
          ++ List.replicate 1 Event.call ++ [Event.resume 0]
          ++ List.replicate 2 Event.call)) = 1 ∧
    ∀ c, c < 3 + 1 + 2 →
      received (run BrowserState.init
        (List.replicate 3 Event.call ++ [Event.settle 0 (.ok 7)]
          ++ List.replicate 1 Event.call ++ [Event.resume 0]
          ++ List.replicate 2 Event.call)) c = some (Launch.fulfilled 7) :=
  getBrowser_single_launch 3 1 2 7 (by decide)

/-! ## The safety level and the `/search` handler -/

/-- The three safety levels pass through line 111 and line 96 unchanged. -/
theorem adlt_of_level (s : String) (hs : s = "strict" ∨ s = "moderate" ∨ s = "off") :
    handlerSafe (.str s) = some (.str s) ∧ (handlerSafe (.str s)).bind adlt = some s := by
  rcases hs with rfl | rfl | rfl <;> decide

/-- An absent `safe` parameter gives `moderate`. -/
theorem adlt_of_absent :
    handlerSafe .absent = some (.str "moderate") ∧
    (handlerSafe .absent).bind adlt = some "moderate" := by
  decide

/-- A `safe` parameter that names no property of `SAFE_MAP`, own or
inherited, gives `moderate`. -/
theorem adlt_of_unknown (s : String) (hs : SAFE_MAP s = .undefined) :
    handlerSafe (.str s) = some (.str "moderate") ∧
    (handlerSafe (.str s)).bind adlt = some "moderate" := by
  have h1 : handlerSafe (.str s) = some (.str "moderate") := by
    simp [handlerSafe, QueryValue.toKey, hs, MapValue.truthy]
  rw [h1]
  exact ⟨rfl, by decide⟩

/-- C4 (the code at the failing input `safe=constructor`): the handler keeps
`constructor` as the `safe` value of the response, and the URL that `doSearch`
navigates to ends in the string conversion of the function `Object`, which is
not `moderate`. -/
theorem searchUrl_safe_constructor (encode : String → String) (q : String) :
    handlerSafe (.str "constructor") = some (.str "constructor") ∧
    (handlerSafe (.str "constructor")).bind adlt ≠ some "moderate" ∧
    (handlerSafe (.str "constructor")).bind (searchUrl encode q)
      = some ("https://www.bing.com/images/search?q=" ++ encode q
        ++ "&adlt=function Object() \x7b [native code] \x7d") := by
  have h1 : handlerSafe (.str "constructor") = some (.str "constructor") := by decide
  have h2 : adlt (.str "constructor")
      = some "function Object() \x7b [native code] \x7d" := by
    decide
  rw [h1]
  refine ⟨rfl, ?_, ?_⟩
  · rw [Option.some_bind, h2]; decide
  · rw [Option.some_bind]
    simp only [searchUrl, h2, String.append_assoc]
    rfl

theorem jsTrim_eq_empty (s : String) (h : ∀ c ∈ s.toList, isJSWhiteSpace c = true) :
    jsTrim s = "" := by
  have h1 : s.data.dropWhile isJSWhiteSpace = [] := List.dropWhile_eq_nil_iff.mpr h
  simp only [jsTrim, String.toList, h1, List.reverse_nil, List.dropWhile_nil]

theorem jsTrim_empty : jsTrim "" = "" := by decide

theorem trimmedQuery_str (s : String) : trimmedQuery (.str s) = some (jsTrim s) := by
  simp only [trimmedQuery]
  split
  · rename_i h; rw [h]
  · rfl

theorem handlerSafe_eq_none (safe : QueryValue) :
    handlerSafe safe = none ↔ safe.toKey = none := by
  unfold handlerSafe
  cases safe.toKey with
  | none => simp
  | some key => by_cases h : (SAFE_MAP key).truthy = true <;> simp [h]

/-- C5, as stated, fails: for the request `q=&safe[toString]=x` the `q`
parameter is empty, but the conversion of the `safe` value to a property key on
line 111 throws before `q` is tested on line 112, and the handler answers 500,
not 400. -/
theorem searchHandler_blank_query_throwing_safe :
    ∃ q safe : QueryValue, q = .str "" ∧ safe = .nested none ∧
      ∀ search : String → QueryValue → Except Err (List Record),
        (searchHandler search q safe).1.status = 500 ∧
        (searchHandler search q safe).1.status ≠ 400 := by
  refine ⟨_, _, rfl, rfl, ?_⟩
  intro search
  have h : (searchHandler search (.str "") (.nested none)).1.status = 500 := by
    simp [searchHandler, trimmedQuery, handlerSafe, QueryValue.toKey]
  exact ⟨h, by rw [h]; decide⟩

/-- C5, amended: for every `/search` request whose `q` parameter is missing,
empty or made only of white space, neither `limit` nor `doSearch` is invoked,
and the handler answers with status 400 and an error body and makes no call at
all, unless the conversion of the `safe` parameter to a property key on line
111 throws, in which case it answers with status 500 and an error body; for
every request whose trimmed `q` is non-empty, the handler does not answer 400;
a nested `q` (an array or an object) is answered 500 without `limit` or
`doSearch`. -/
theorem searchHandler_blank_query
    (search : String → QueryValue → Except Err (List Record)) (q safe : QueryValue) :
    ((q = .absent ∨ ∃ s, q = .str s ∧ ∀ c ∈ s.toList, isJSWhiteSpace c = true) →
      HandlerEvent.limit ∉ (searchHandler search q safe).2 ∧
      (∀ q₁ safe₁, HandlerEvent.doSearch q₁ safe₁ ∉ (searchHandler search q safe).2) ∧
      (safe.toKey ≠ none →
        (searchHandler search q safe).1.status = 400 ∧
        (∃ message, (searchHandler search q safe).1.body = Body.error message) ∧
        (searchHandler search q safe).2 = []) ∧
      (safe.toKey = none →
        (searchHandler search q safe).1.status = 500 ∧
        (∃ message, (searchHandler search q safe).1.body = Body.error message) ∧
        (searchHandler search q safe).2 = [HandlerEvent.consoleError])) ∧
    (∀ s, q = .str s → jsTrim s ≠ "" →
      (searchHandler search q safe).1.status ≠ 400) ∧
    (∀ t, q = .nested t →
      (searchHandler search q safe).1.status = 500 ∧
      (searchHandler search q safe).2 = [HandlerEvent.consoleError]) := by
  refine ⟨?_, ?_, ?_⟩
  · intro h
    have ht : trimmedQuery q = some "" := by
      rcases h with rfl | ⟨s, rfl, hs⟩
      · simp [trimmedQuery, jsTrim_empty]
      · rw [trimmedQuery_str, jsTrim_eq_empty s hs]
    cases hsafe : handlerSafe safe with
    | none =>
      have hk : safe.toKey = none := (handlerSafe_eq_none safe).mp hsafe
      simp [searchHandler, ht, hsafe, hk]
    | some safe₂ =>
      have hk : safe.toKey ≠ none := by
        intro hk
        rw [(handlerSafe_eq_none safe).mpr hk] at hsafe
        cases hsafe
      simp [searchHandler, ht, hsafe, hk]
  · intro s hq hne
    subst hq
    simp only [searchHandler, trimmedQuery_str]
    cases handlerSafe safe with
    | none => simp
    | some safe₂ =>
      simp only [hne, if_false]
      cases search (jsTrim s) safe₂ <;> simp
  · intro t hq
    subst hq
    simp [searchHandler, trimmedQuery]

/-- C5, amended, at the requests `q=%20%09` (blank), no `q` at all, a blank
`q` with `safe[toString]=x`, and `q=%20cat%20`. -/
theorem searchHandler_blank_query_witness :
    (searchHandler (fun _ _ => .ok []) (.str " \t") .absent).1.status = 400 ∧
    (searchHandler (fun _ _ => .ok []) (.str " \t") .absent).2 = [] ∧
    (searchHandler (fun _ _ => .ok []) .absent (.str "off")).1.status = 400 ∧
    (searchHandler (fun _ _ => .ok []) (.str " \t") (.nested none)).1.status = 500 ∧
    (searchHandler (fun _ _ => .ok []) (.str " cat ") .absent).1.status ≠ 400 :=
  ⟨(((searchHandler_blank_query (fun _ _ => .ok []) (.str " \t") .absent).1
      (Or.inr ⟨" \t", rfl, by decide⟩)).2.2.1 (by decide)).1,
   (((searchHandler_blank_query (fun _ _ => .ok []) (.str " \t") .absent).1
      (Or.inr ⟨" \t", rfl, by decide⟩)).2.2.1 (by decide)).2.2,
   (((searchHandler_blank_query (fun _ _ => .ok []) .absent (.str "off")).1
      (Or.inl rfl)).2.2.1 (by decide)).1,
   (((searchHandler_blank_query (fun _ _ => .ok []) (.str " \t") (.nested none)).1
      (Or.inr ⟨" \t", rfl, by decide⟩)).2.2.2 rfl).1,
   (searchHandler_blank_query (fun _ _ => .ok []) (.str " cat ") .absent).2.1 " cat " rfl
      (by decide)⟩

/-! ## The scrape -/

/-- C6 (the code at the failing runs): in every run of `doSearch` in which
the page was opened and a later step before `page.close()` rejects, the error
propagates and `page.close()` is never started. -/
theorem doSearch_failure_skips_close (encode : String → String) (o : Outcomes)
    (q : String) (safe : QueryValue)
    (hb : o.getBrowser = none) (hp : o.newPage = none)
    (hfail : o.setUserAgent ≠ none ∨ o.setExtraHTTPHeaders ≠ none ∨ o.setViewport ≠ none ∨
      o.goto ≠ none ∨ o.scroll ≠ none ∨ ∃ e, o.extract = .error e) :
    PageEvent.newPage ∈ (doSearch encode o q safe).2 ∧
    PageEvent.close ∉ (doSearch encode o q safe).2 ∧
    ∃ e, (doSearch encode o q safe).1 = .error e := by
  obtain ⟨g, n, ua, hd, vp, gt, sc, ex, cl⟩ := o
  simp only at hb hp hfail
  subst hb hp
  cases hu : searchUrl encode q safe <;>
    cases ua <;> cases hd <;> cases vp <;> cases gt <;> cases sc <;> cases ex <;>
    simp [doSearch, hu] at hfail ⊢

/-- C6 at a run whose navigation times out. -/
theorem doSearch_failure_skips_close_witness :
    PageEvent.newPage ∈ (doSearch id
      ⟨none, none, none, none, none, some "TimeoutError", none, .ok [], none⟩
      "cat" (.str "strict")).2 ∧
    PageEvent.close ∉ (doSearch id
      ⟨none, none, none, none, none, some "TimeoutError", none, .ok [], none⟩
      "cat" (.str "strict")).2 ∧
    ∃ e, (doSearch id
      ⟨none, none, none, none, none, some "TimeoutError", none, .ok [], none⟩
      "cat" (.str "strict")).1 = .error e :=
  doSearch_failure_skips_close id
    ⟨none, none, none, none, none, some "TimeoutError", none, .ok [], none⟩
    "cat" (.str "strict") rfl rfl (by simp)

/-- On the path without failure the page is closed and the records returned. -/
theorem doSearch_success_closes (encode : String → String) (o : Outcomes)
    (q : String) (safe : QueryValue) (records : List Record) (url : String)
    (hb : o.getBrowser = none) (hp : o.newPage = none) (hua : o.setUserAgent = none)
    (hhd : o.setExtraHTTPHeaders = none) (hvp : o.setViewport = none)
    (hu : searchUrl encode q safe = some url) (hgt : o.goto = none)
    (hsc : o.scroll = none) (hex : o.extract = .ok records) (hcl : o.close = none) :
    (doSearch encode o q safe).1 = .ok records ∧
    PageEvent.close ∈ (doSearch encode o q safe).2 ∧
    PageEvent.goto url ∈ (doSearch encode o q safe).2 := by
  simp [doSearch, hb, hp, hua, hhd, hvp, hu, hgt, hsc, hex, hcl]

/-! ## The in-page extraction -/

theorem foldl_push_eq {α β : Type} (f : α → Option β) (g : List β → α → List β)
    (hg : ∀ out a, g out a = out ++ (f a).toList) (l : List α) (out : List β) :
    l.foldl g out = out ++ l.filterMap f := by
  induction l generalizing out with
  | nil => simp
  | cons a rest ih =>
    simp only [List.foldl_cons, List.filterMap_cons, ih, hg]
    cases h : f a with
    | none => simp
    | some r => simp

theorem anchorPass_eq (parse : String → Option JSONValue) (anchors : List Anchor) :
    anchorPass parse anchors = anchors.filterMap (anchorRecord parse) := by
  unfold anchorPass
  rw [foldl_push_eq (anchorRecord parse)]
  · simp
  · intro out a
    cases h : anchorRecord parse a <;> simp

theorem imgPass_eq (out : List Record) (imgs : List Img) :
    imgPass out imgs = out ++ imgs.filterMap imgRecord := by
  unfold imgPass
  rw [foldl_push_eq imgRecord]
  intro out img
  cases h : imgRecord img <;> simp

theorem getProp_eq_memberOf (payload : JSONValue) (key : String) (h : payload ≠ .null) :
    payload.getProp key = some (memberOf payload key) := by
  cases payload with
  | null => exact absurd rfl h
  | object props =>
    simp only [JSONValue.getProp, memberOf]
    cases props.lookup key <;> rfl
  | _ => rfl

theorem anchorRecord_of_payload (parse : String → Option JSONValue) (a : Anchor)
    (m : String) (payload : JSONValue) (hm : a.m = some m) (hne : m ≠ "")
    (hp : parse m = some payload) (hnull : payload ≠ .null) :
    anchorRecord parse a = some (payloadRecord payload) := by
  simp only [anchorRecord, hm, hne, if_false, hp, getProp_eq_memberOf payload _ hnull,
    payloadRecord]

theorem anchorRecord_eq_some (parse : String → Option JSONValue) (a : Anchor) (r : Record) :
    anchorRecord parse a = some r ↔
      ∃ m payload, a.m = some m ∧ m ≠ "" ∧ parse m = some payload ∧ payload ≠ .null ∧
        r = payloadRecord payload := by
  constructor
  · intro h
    cases hm : a.m with
    | none => simp [anchorRecord, hm] at h
    | some m =>
      by_cases hne : m = ""
      · simp [anchorRecord, hm, hne] at h
      · cases hp : parse m with
        | none => simp [anchorRecord, hm, hne, hp] at h
        | some payload =>
          by_cases hnull : payload = .null
          · subst hnull
            simp [anchorRecord, hm, hne, hp, JSONValue.getProp] at h
          · refine ⟨m, payload, rfl, hne, hp, hnull, ?_⟩
            rw [anchorRecord_of_payload parse a m payload hm hne hp hnull] at h
            exact (Option.some.inj h).symm
  · rintro ⟨m, payload, hm, hne, hp, hnull, rfl⟩
    exact anchorRecord_of_payload parse a m payload hm hne hp hnull

theorem imgRecord_eq_some (img : Img) (r : Record) :
    imgRecord img = some r ↔
      ∃ s, imgSource img = some s ∧ startsWithData s = false ∧
        r = ⟨.string s, .string s, .null, (attrValue img.alt).or .null⟩ := by
  obtain ⟨src, dataSrc, alt⟩ := img
  have key : ∀ (v : JSValue) (o : Option String),
      (v = .null ∧ o = none) ∨ (∃ s, s ≠ "" ∧ v = .string s ∧ o = some s) →
      ((match v with
        | .string s =>
          if v.truthy && !startsWithData s then
            some (⟨v, v, .null, (attrValue alt).or .null⟩ : Record)
          else none
        | _ => none) = some r ↔
        ∃ s, o = some s ∧ startsWithData s = false ∧
          r = ⟨.string s, .string s, .null, (attrValue alt).or .null⟩) := by
    intro v o h
    rcases h with ⟨rfl, rfl⟩ | ⟨s, hs, rfl, rfl⟩
    · simp
    · by_cases hd : startsWithData s = true
      · simp [JSValue.truthy, hs, hd]
      · have hd2 : startsWithData s = false := by simpa using hd
        have hb : (s != "") = true := by simpa using hs
        simp only [JSValue.truthy, hb, hd2, Bool.not_false, Bool.and_self, if_true,
          Option.some.injEq, exists_eq_left', true_and]
        exact eq_comm
  simp only [imgRecord]
  apply key
  cases src with
  | none =>
    cases dataSrc with
    | none => left; simp [imgSource, attrValue, JSValue.or, JSValue.truthy]
    | some t =>
      by_cases ht : t = ""
      · left; simp [imgSource, attrValue, JSValue.or, JSValue.truthy, ht]
      · right
        exact ⟨t, ht, by simp [attrValue, JSValue.or, JSValue.truthy, ht],
          by simp [imgSource, ht]⟩
  | some s =>
    by_cases hs : s = ""
    · cases dataSrc with
      | none => left; simp [imgSource, attrValue, JSValue.or, JSValue.truthy, hs]
      | some t =>
        by_cases ht : t = ""
        · left; simp [imgSource, attrValue, JSValue.or, JSValue.truthy, hs, ht]
        · right
          exact ⟨t, ht, by simp [attrValue, JSValue.or, JSValue.truthy, hs, ht],
            by simp [imgSource, hs, ht]⟩
    · right
      exact ⟨s, hs, by simp [attrValue, JSValue.or, JSValue.truthy, hs],
        by simp [imgSource, hs]⟩

theorem imgSource_ne_empty (img : Img) (s : String) (h : imgSource img = some s) :
    s ≠ "" := by
  obtain ⟨src, dataSrc, alt⟩ := img
  have hfilter : ∀ o : Option String,
      o.filter (fun t => decide (t ≠ "")) = some s → s ≠ "" := by
    intro o ho
    cases o with
    | none => simp at ho
    | some t =>
      by_cases ht : t = ""
      · simp [Option.filter, ht] at ho
      · simp only [Option.filter, ne_eq, ht, not_false_eq_true, decide_True, if_true,
          Option.some.injEq] at ho
        exact ho ▸ ht
  cases src with
  | none => exact hfilter dataSrc h
  | some t =>
    simp only [imgSource] at h
    split at h
    · rename_i ht
      exact (Option.some.inj h) ▸ ht
    · exact hfilter dataSrc h

theorem copyRecord_imgRecord (i : Nat) (img : Img) (r : Record)
    (h : imgRecord img = some r) : copyRecord i r = r := by
  obtain ⟨s, _, _, rfl⟩ := (imgRecord_eq_some img r).mp h
  obtain ⟨src, dataSrc, alt⟩ := img
  cases alt with
  | none => rfl
  | some t => by_cases ht : t = "" <;>
      simp [copyRecord, JSValue.copy, attrValue, JSValue.or, JSValue.truthy, ht]

theorem evaluateExtract_eq (parse : String → Option JSONValue) (page : Page) :
    evaluateExtract parse page =
      if anchorPass parse page.anchors = [] then page.imgs.filterMap imgRecord
      else anchorPass parse page.anchors := by
  simp only [evaluateExtract, List.length_eq_zero]
  split
  · rename_i h
    rw [imgPass_eq, h, List.nil_append]
  · rfl

theorem dedupResults_pair (r₁ r₂ : Record) (ht : r₁.src.truthy = true)
    (heq : r₁.src = r₂.src) :
    dedupResults [some r₁, some r₂] = [r₁] := by
  have ht2 : r₂.src.truthy = true := heq ▸ ht
  simp [dedupResults, dedupLoop, ht, ht2, heq]

/-- Two anchors with the same payload text whose `murl` is an object: each
record returned by the page evaluation has an object of its own as `src`, so
the deduplication loop keeps both. -/
theorem extractFromPage_object_src :
    extractFromPage (fun _ => some (.object [("murl", .object 0)]))
        ⟨[⟨some "A"⟩, ⟨some "A"⟩], []⟩
      = [⟨.object 0, .object 1, .null, .null⟩, ⟨.object 4, .object 5, .null, .null⟩] := by
  decide

/-! ## The in-page extraction: the claims -/

/-- C9, as stated, fails: an anchor whose `m` attribute is `5` parses as a
JSON number, not as a JSON object, and the anchor pass still pushes a record
for it (with four `null` fields), where the claim has no record. -/
theorem anchorPass_number_payload :
    ∃ anchors : List Anchor, anchors = [⟨some "5"⟩] ∧
      ∀ parse : String → Option JSONValue, parse "5" = some (.number 5) →
        anchorPass parse anchors = [⟨.null, .null, .null, .null⟩] ∧
        anchors.filterMap (anchorRecordOfObject parse) = [] ∧
        anchorPass parse anchors ≠ anchors.filterMap (anchorRecordOfObject parse) := by
  refine ⟨_, rfl, ?_⟩
  intro parse hp
  have h1 : anchorPass parse [⟨some "5"⟩] = [⟨.null, .null, .null, .null⟩] := by
    rw [anchorPass_eq]
    have : anchorRecord parse ⟨some "5"⟩ = some ⟨.null, .null, .null, .null⟩ := by
      rw [anchorRecord_of_payload parse ⟨some "5"⟩ "5" (.number 5) rfl (by decide) hp
        (by simp)]
      rfl
    simp [this]
  have h2 : List.filterMap (anchorRecordOfObject parse) [⟨some "5"⟩] = [] := by
    simp [anchorRecordOfObject, hp]
  refine ⟨h1, h2, ?_⟩
  rw [h1, h2]
  simp

/-- C9, amended: for every list of `a.iusc` anchors, the anchor pass yields,
in document order, one record per anchor whose `m` attribute is present, not
empty, and parses as a JSON value other than `null`, namely
`{src: murl or null, thumb: turl, else murl, else null, page: purl or null,
title: pt, else s, else null}` where a member counts as absent when the parsed
value is not an object; for a JSON object this is the record of the claim; an
anchor whose `m` attribute is missing, empty, not valid JSON or the JSON
`null` contributes no record and does not prevent the records of the other
anchors. -/
theorem anchorPass_records (parse : String → Option JSONValue) (anchors : List Anchor) :
    anchorPass parse anchors = anchors.filterMap (anchorRecord parse) ∧
    (∀ a r, anchorRecord parse a = some r ↔
      ∃ m payload, a.m = some m ∧ m ≠ "" ∧ parse m = some payload ∧ payload ≠ .null ∧
        r = payloadRecord payload) ∧
    (∀ a m props, a.m = some m → m ≠ "" → parse m = some (.object props) →
      anchorRecord parse a = anchorRecordOfObject parse a) ∧
    (∀ a, (a.m = none ∨ a.m = some "" ∨ (∃ m, a.m = some m ∧ parse m = none) ∨
        (∃ m, a.m = some m ∧ parse m = some .null)) → anchorRecord parse a = none) := by
  refine ⟨anchorPass_eq parse anchors, anchorRecord_eq_some parse, ?_, ?_⟩
  · intro a m props hm hne hp
    rw [anchorRecord_of_payload parse a m _ hm hne hp (by simp)]
    simp [anchorRecordOfObject, hm, hp]
  · intro a h
    cases hr : anchorRecord parse a with
    | none => rfl
    | some r =>
      obtain ⟨m, payload, hm, hne, hp, hnull, _⟩ := (anchorRecord_eq_some parse a r).mp hr
      rcases h with h | h | ⟨m2, h, hp2⟩ | ⟨m2, h, hp2⟩
      · rw [hm] at h; cases h
      · rw [hm] at h; exact absurd (Option.some.inj h) hne
      · rw [hm] at h; cases h; rw [hp] at hp2; cases hp2
      · rw [hm] at h; cases h; rw [hp] at hp2; cases hp2; exact absurd rfl hnull

/-- C9, amended, on the example of the specification: two anchors with the
same payload, between them an anchor whose payload is not valid JSON; the
parser maps the text `A` to the object of the example and rejects any other
text. -/
theorem anchorPass_records_witness :
    anchorPass
        (fun m => if m = "A" then some (.object [("murl", .string "http://a/1.jpg"),
          ("turl", .string "http://a/1t.jpg"), ("purl", .string "http://a/p1"),
          ("pt", .string "A")]) else none)
        [⟨some "A"⟩, ⟨some "bad"⟩, ⟨some "A"⟩]
      = [⟨.string "http://a/1.jpg", .string "http://a/1t.jpg", .string "http://a/p1",
          .string "A"⟩,
         ⟨.string "http://a/1.jpg", .string "http://a/1t.jpg", .string "http://a/p1",
          .string "A"⟩] :=
  (anchorPass_records _ _).1.trans (by decide)

/-- C10, as stated, fails: on a page with one anchor that carries the `m`
attribute with a payload that is not valid JSON, and one `img`, the scan of
`img` elements runs although an anchor with the attribute was found. -/
theorem imgScan_runs_with_anchor :
    ∃ page : Page,
      page = ⟨[⟨some "not json"⟩], [⟨some "http://b/2.jpg", none, some "B"⟩]⟩ ∧
      ∀ parse : String → Option JSONValue, parse "not json" = none →
        (∃ a ∈ page.anchors, a.m ≠ none) ∧
        imgScanRuns parse page = true ∧
        evaluateExtract parse page
          = [⟨.string "http://b/2.jpg", .string "http://b/2.jpg", .null, .string "B"⟩] := by
  refine ⟨_, rfl, ?_⟩
  intro parse hp
  have h1 : anchorPass parse [⟨some "not json"⟩] = [] := by
    rw [anchorPass_eq]
    simp [anchorRecord, hp]
  refine ⟨⟨_, List.mem_singleton.mpr rfl, by simp⟩, ?_, ?_⟩
  · simp [imgScanRuns, h1]
  · rw [evaluateExtract_eq]
    simp only [h1, if_true]
    decide

/-- C10, amended: the scan of plain `img` elements is used when, and only
when, the anchor pass has produced no record (in particular when no anchor
carries the metadata attribute); in that case every `img` whose `src` (or,
failing that, `data-src`) is present and does not start with `data:` yields
the record `{src, thumb: src, page: null, title: alt text or null}`, in
document order, so that every record of the fallback path has a `null` page
and two `img` elements with the same `src` give a single record after
deduplication. -/
theorem evaluateExtract_fallback (parse : String → Option JSONValue) (page : Page) :
    (imgScanRuns parse page = true ↔ anchorPass parse page.anchors = []) ∧
    ((∀ a ∈ page.anchors, a.m = none) → imgScanRuns parse page = true) ∧
    (evaluateExtract parse page =
      if imgScanRuns parse page = true then page.imgs.filterMap imgRecord
      else anchorPass parse page.anchors) ∧
    (∀ img r, imgRecord img = some r ↔
      ∃ s, imgSource img = some s ∧ startsWithData s = false ∧
        r = ⟨.string s, .string s, .null, (attrValue img.alt).or .null⟩) ∧
    (imgScanRuns parse page = true → ∀ r ∈ evaluateExtract parse page, r.page = .null) ∧
    (∀ i₁ i₂ r₁ r₂, imgScanRuns parse page = true → page.imgs = [i₁, i₂] →
      imgRecord i₁ = some r₁ → imgRecord i₂ = some r₂ → r₁.src = r₂.src →
      extractFromPage parse page = [r₁]) := by
  have hruns : imgScanRuns parse page = true ↔ anchorPass parse page.anchors = [] := by
    simp [imgScanRuns]
  have heval : evaluateExtract parse page =
      if imgScanRuns parse page = true then page.imgs.filterMap imgRecord
      else anchorPass parse page.anchors := by
    rw [evaluateExtract_eq]
    simp only [hruns]
  refine ⟨hruns, ?_, heval, imgRecord_eq_some, ?_, ?_⟩
  · intro h
    rw [hruns, anchorPass_eq, List.filterMap_eq_nil_iff]
    intro a ha
    simp [anchorRecord, h a ha]
  · intro h r hr
    rw [heval, if_pos h, List.mem_filterMap] at hr
    obtain ⟨img, _, himg⟩ := hr
    obtain ⟨s, _, _, rfl⟩ := (imgRecord_eq_some img r).mp himg
    rfl
  · intro i₁ i₂ r₁ r₂ h himgs h₁ h₂ heq
    have ht : r₁.src.truthy = true := by
      obtain ⟨s, hsrc, _, rfl⟩ := (imgRecord_eq_some i₁ r₁).mp h₁
      have hs : s ≠ "" := imgSource_ne_empty i₁ s hsrc
      simpa [JSValue.truthy] using hs
    unfold extractFromPage pageEvaluate
    rw [heval, if_pos h, himgs]
    simp only [List.filterMap_cons, h₁, h₂, List.filterMap_nil, copyFrom,
      copyRecord_imgRecord _ i₁ r₁ h₁, copyRecord_imgRecord _ i₂ r₂ h₂, List.map_cons,
      List.map_nil]
    exact dedupResults_pair r₁ r₂ ht heq

/-- C10, amended, on the example of the specification: no matching anchor
and two `img` elements with the same `src`. -/
theorem evaluateExtract_fallback_witness :
    extractFromPage (fun _ => none)
        ⟨[], [⟨some "http://b/2.jpg", none, some "B"⟩, ⟨some "http://b/2.jpg", none, some "B"⟩]⟩
      = [⟨.string "http://b/2.jpg", .string "http://b/2.jpg", .null, .string "B"⟩] :=
  (evaluateExtract_fallback (fun _ => none)
    ⟨[], [⟨some "http://b/2.jpg", none, some "B"⟩, ⟨some "http://b/2.jpg", none, some "B"⟩]⟩).2.2.2.2.2
    _ _ _ _ (by decide) rfl (by decide) (by decide) rfl

end Server
